import Mathlib

/-
Verification development for the rotated-bounding-box refinement pipeline of
src/rotatingBoundingBox.py.

Shallow embedding conventions:
  * Rasters are lists of rows.  A color (BGR) image is a list of rows of
    channel triples; a single-channel raster is a list of rows of naturals.
  * OpenCV floating-point values (rectangle centers, sizes, angles,
    thresholds, areas) are modelled as exact rationals.
  * OpenCV primitives whose pixel-level behaviour none of the claims depend
    on (color conversion, CLAHE, Gaussian blur, Otsu threshold selection,
    the adaptive local threshold field, findContours, approxPolyDP,
    convexHull, minAreaRect, boxPoints, arcLength) are opaque parameters,
    bundled in the structures SegOps (segmentation stage) and FitOps
    (shape-fitting stage).  Everything else - array slicing, the comparison
    in cv2.threshold / cv2.adaptiveThreshold, cv2.bitwise_or, the 3x3
    morphology, cv2.contourArea (Green formula), the area filter, Python's
    max with a key, np.int0 and the coordinate translation - is modelled
    concretely, following the source line by line.
  * cv2.cvtColor raises the assertion error (-215 Assertion failed,
    !_src.empty()) when its source has no pixels; a raised Python exception
    is modelled as Except.error.  Python's ZeroDivisionError in pixel_to_cm
    is modelled the same way.
-/

/-- Single-channel raster (cv2 grayscale / binary image): a list of rows. -/
abbrev Gray : Type := List (List ℕ)

/-- Three-channel raster (cv2 BGR / LAB image): rows of channel triples. -/
abbrev Color : Type := List (List (ℕ × ℕ × ℕ))

/-- Contour: ordered list of integer 2D points (cv2 contour). -/
abbrev Contour : Type := List (ℤ × ℤ)

/-- Row-length profile of a raster; two rasters have the same width and
height exactly when their shapes are equal. -/
def shape (m : List (List α)) : List ℕ := m.map List.length

/-- Total number of pixels, numpy's size / what cv2's Mat::empty() tests:
a Mat is empty iff it has zero total pixels. -/
def totalSize (m : List (List α)) : ℕ := (m.map List.length).sum

/-- Pixel lookup at row i, column j (numpy m[i][j], None when out of range). -/
def getPix (m : List (List α)) (i j : ℕ) : Option α :=
  (m[i]?).bind fun row => row[j]?

/-- Pixel lookup with integer indices; negative indices are out of range
(used only for the morphology neighborhood). -/
def getPixI (m : Gray) (i j : ℤ) : Option ℕ :=
  if 0 ≤ i ∧ 0 ≤ j then getPix m i.toNat j.toNat else none

/-- Numpy slice image[y1:y2, x1:x2] (line 36).  Out-of-range bounds clamp,
and an empty range yields an empty slice, as in numpy. -/
def crop (image : Color) (x1 y1 x2 y2 : ℕ) : Color :=
  ((image.drop y1).take (y2 - y1)).map fun row => (row.drop x1).take (x2 - x1)

/-- Number of rows of the ROI, roi.shape[0] (line 38). -/
def roiHeight (roi : Color) : ℕ := roi.length

/-- Number of columns of the ROI, roi.shape[1] (line 38).  For a raster
with at least one row this is the first row's length; numpy additionally
remembers a column count for a 0-row slice, but then the area
roiHeight * roiWidth is 0 either way, which is all line 39 uses. -/
def roiWidth (roi : Color) : ℕ := (roi.headD []).length

/-- Map with the element's index, starting the count at n. -/
def mapIdxFrom (f : ℕ → α → β) : ℕ → List α → List β
  | _, [] => []
  | n, x :: xs => f n x :: mapIdxFrom f (n + 1) xs

/-- L channel of a split LAB image (cv2.split, line 14). -/
def splitL (lab : Color) : Gray := lab.map fun row => row.map fun p => p.1

/-- A channel of a split LAB image (cv2.split, line 14). -/
def splitA (lab : Color) : Gray := lab.map fun row => row.map fun p => p.2.1

/-- B channel of a split LAB image (cv2.split, line 14). -/
def splitB (lab : Color) : Gray := lab.map fun row => row.map fun p => p.2.2

/-- Channel merge (cv2.merge [cl, a, b], line 17). -/
def merge3 (x y z : Gray) : Color :=
  List.zipWith (fun rx ryz => List.zipWith (fun v p => (v, p)) rx ryz) x
    (List.zipWith (fun ry rz => List.zipWith (fun a b => (a, b)) ry rz) y z)

/-- Rotated rectangle as returned by cv2.minAreaRect:
((center_x, center_y), (width, height), angle). -/
structure RotRect where
  center : ℚ × ℚ
  size : ℚ × ℚ
  angle : ℚ
deriving DecidableEq

/-- Python exceptions the modelled code can raise. -/
inductive PyError where
  /-- OpenCV error (-215 Assertion failed) !_src.empty() in cvtColor. -/
  | emptyInput : PyError
  /-- ZeroDivisionError. -/
  | zeroDivision : PyError
deriving DecidableEq

/-- Opaque OpenCV primitives used by the segmentation stage
(enhance_image and get_binary_mask).  Only their types are fixed here;
theorems that need a fact about one of them (for example that it preserves
the raster's shape, as every one of these cv2 calls does) take that fact as
an explicit hypothesis. -/
structure SegOps where
  /-- cv2.cvtColor(roi, cv2.COLOR_BGR2LAB) on a nonempty image (line 13). -/
  bgr2lab : Color → Color
  /-- clahe.apply with clipLimit 3.0 and tileGridSize (8,8) (lines 15-16). -/
  clahe : Gray → Gray
  /-- cv2.cvtColor(enhanced, cv2.COLOR_LAB2BGR) on a nonempty image (line 18). -/
  lab2bgr : Color → Color
  /-- cv2.cvtColor(enhanced, cv2.COLOR_BGR2GRAY) on a nonempty image (line 23). -/
  cvtGray : Color → Gray
  /-- cv2.GaussianBlur(gray, (5,5), 0) (line 24). -/
  gaussianBlur5 : Gray → Gray
  /-- Threshold value selected by Otsu's method on the blurred image
  (the retval of cv2.threshold with THRESH_OTSU, line 25). -/
  otsuThresh : Gray → ℕ
  /-- Position-dependent threshold of cv2.adaptiveThreshold: the
  Gaussian-weighted mean of the 11x11 block minus the constant 2,
  at row i and column j of the blurred image (lines 26-27). -/
  adaptiveT : Gray → ℕ → ℕ → ℚ
  /-- cv2.findContours(binary, cv2.RETR_EXTERNAL, cv2.CHAIN_APPROX_SIMPLE)
  (line 42), returning the list of outer contours. -/
  findContours : Gray → List Contour

/-- Opaque OpenCV primitives used by the shape-fitting stage (lines 57-62). -/
structure FitOps where
  /-- cv2.arcLength(c, True): the contour's closed perimeter (line 57). -/
  arcLength : Contour → ℚ
  /-- cv2.approxPolyDP(c, epsilon, True) (line 58). -/
  approxPolyDP : Contour → ℚ → Contour
  /-- cv2.convexHull(approx) (line 59). -/
  convexHull : Contour → Contour
  /-- cv2.minAreaRect(hull) (line 61). -/
  minAreaRect : Contour → RotRect
  /-- cv2.boxPoints(rotated_rect): the four float corners (line 62). -/
  boxPoints : RotRect → List (ℚ × ℚ)

/-- Guard shared by every cv2.cvtColor call: OpenCV asserts !_src.empty()
and raises cv2.error when the source has no pixels; otherwise it applies
the (opaque) color conversion f. -/
def cvtColorChecked (f : Color → β) (src : Color) : Except PyError β :=
  if totalSize src = 0 then Except.error PyError.emptyInput else Except.ok (f src)

/-- Value computed by enhance_image when no cvtColor assertion fires
(lines 13-19): split the LAB image, CLAHE the L channel, merge, convert
back to BGR. -/
def enhancedPure (seg : SegOps) (roi : Color) : Color :=
  seg.lab2bgr
    (merge3 (seg.clahe (splitL (seg.bgr2lab roi)))
      (splitA (seg.bgr2lab roi)) (splitB (seg.bgr2lab roi)))

/-- enhance_image (lines 12-19): BGR to LAB, CLAHE on the L channel only,
merge, LAB back to BGR.  Each cvtColor raises on an empty source. -/
def enhance_image (seg : SegOps) (roi : Color) : Except PyError Color :=
  match cvtColorChecked seg.bgr2lab roi with
  | Except.error e => Except.error e
  | Except.ok lab =>
    cvtColorChecked seg.lab2bgr
      (merge3 (seg.clahe (splitL lab)) (splitA lab) (splitB lab))

/-- cv2.threshold(blurred, 0, 255, THRESH_BINARY + THRESH_OTSU) (line 25)
with Otsu-selected threshold t: dst = 255 where src > t, else 0. -/
def threshBinary (t : ℕ) (m : Gray) : Gray :=
  m.map fun row => row.map fun v => if t < v then 255 else 0

/-- cv2.adaptiveThreshold(blurred, 255, ADAPTIVE_THRESH_GAUSSIAN_C,
THRESH_BINARY, 11, 2) (lines 26-27) with local threshold field T:
dst(i,j) = 255 where src(i,j) > T(i,j), else 0. -/
def adaptiveThreshold (T : ℕ → ℕ → ℚ) (m : Gray) : Gray :=
  mapIdxFrom (fun i row => mapIdxFrom (fun j (v : ℕ) => if T i j < (v : ℚ) then 255 else 0) 0 row) 0 m

/-- Mask produced by the Otsu global threshold (thresh1, line 25). -/
def otsuMask (seg : SegOps) (blurred : Gray) : Gray :=
  threshBinary (seg.otsuThresh blurred) blurred

/-- Mask produced by the Gaussian adaptive threshold (thresh2, lines 26-27). -/
def adaptiveMask (seg : SegOps) (blurred : Gray) : Gray :=
  adaptiveThreshold (seg.adaptiveT blurred) blurred

/-- cv2.bitwise_or (line 28): pointwise bitwise or of two rasters. -/
def bitwiseOr (m1 m2 : Gray) : Gray :=
  List.zipWith (fun r1 r2 => List.zipWith (fun a b => a ||| b) r1 r2) m1 m2

/-- Combined mask before morphological cleanup (binary, line 28). -/
def combinedMask (seg : SegOps) (blurred : Gray) : Gray :=
  bitwiseOr (otsuMask seg blurred) (adaptiveMask seg blurred)

/-- Index offsets of the 3x3 structuring element np.ones((3,3)) (line 29),
anchored at its center. -/
def offsets3 : List (ℤ × ℤ) :=
  [(-1, -1), (-1, 0), (-1, 1), (0, -1), (0, 0), (0, 1), (1, -1), (1, 0), (1, 1)]

/-- Pixel values of m under the 3x3 window centered at (i, j); positions
outside the raster contribute nothing, matching OpenCV's border handling
for erode and dilate (the constant border value never wins the min or max). -/
def neigh3 (m : Gray) (i j : ℕ) : List ℕ :=
  offsets3.filterMap fun d => getPixI m ((i : ℤ) + d.1) ((j : ℤ) + d.2)

/-- cv2.dilate with the 3x3 element: each pixel becomes the maximum over
its 3x3 neighborhood. -/
def dilate3 (m : Gray) : Gray :=
  mapIdxFrom (fun i row => mapIdxFrom (fun j _ => (neigh3 m i j).foldl max 0) 0 row) 0 m

/-- cv2.erode with the 3x3 element: each pixel becomes the minimum over
its 3x3 neighborhood (the center pixel v is in the neighborhood, so it is
a sound fold seed). -/
def erode3 (m : Gray) : Gray :=
  mapIdxFrom (fun i row => mapIdxFrom (fun j v => (neigh3 m i j).foldl min v) 0 row) 0 m

/-- cv2.morphologyEx(binary, cv2.MORPH_CLOSE, kernel) (line 30):
dilate then erode. -/
def morphClose (m : Gray) : Gray := erode3 (dilate3 m)

/-- cv2.morphologyEx(binary, cv2.MORPH_OPEN, kernel) (line 31):
erode then dilate. -/
def morphOpen (m : Gray) : Gray := dilate3 (erode3 m)

/-- Blurred grayscale of the enhanced ROI (blurred, line 24), on the
non-raising path. -/
def blurredOf (seg : SegOps) (roi : Color) : Gray :=
  seg.gaussianBlur5 (seg.cvtGray (enhancedPure seg roi))

/-- get_binary_mask (lines 21-32): enhance, grayscale, blur, Otsu and
adaptive thresholds combined by bitwise or, then morphological closing
followed by opening. -/
def get_binary_mask (seg : SegOps) (roi : Color) : Except PyError Gray :=
  match enhance_image seg roi with
  | Except.error e => Except.error e
  | Except.ok enhanced =>
    match cvtColorChecked seg.cvtGray enhanced with
    | Except.error e => Except.error e
    | Except.ok gray =>
      Except.ok (morphOpen (morphClose (combinedMask seg (seg.gaussianBlur5 gray))))

/-- Twice the signed polygon area: the cyclic cross-product sum of
Green's formula, exactly what cv2.contourArea accumulates. -/
def shoelace (pts : Contour) : ℤ :=
  match pts with
  | [] => 0
  | p0 :: _ =>
    (List.zip pts (pts.drop 1 ++ [p0])).foldl
      (fun acc pq => acc + (pq.1.1 * pq.2.2 - pq.2.1 * pq.1.2)) 0

/-- cv2.contourArea(contour) (line 49): the absolute value of the signed
polygon area (oriented=false). -/
def contourArea (c : Contour) : ℚ := ((shoelace c).natAbs : ℚ) / 2

/-- Area filter of lines 47-51: keep the contours whose area exceeds
roi_area * min_area_ratio, in order. -/
def validContours (contours : List Contour) (roiArea : ℕ) (r : ℚ) : List Contour :=
  contours.filter fun c => decide ((roiArea : ℚ) * r < contourArea c)

/-- Python max(valid_contours, key=cv2.contourArea) (line 56): the first
contour of maximal area (max keeps the earlier element on ties). -/
def maxByArea : List Contour → Contour
  | [] => []
  | c :: cs => cs.foldl (fun best x => if contourArea best < contourArea x then x else best) c

/-- Conversion of a float coordinate by np.int0 (line 63): C-style
truncation toward zero. -/
def truncQ (q : ℚ) : ℤ := if q < 0 then -(⌊-q⌋) else ⌊q⌋

/-- Shape-fitting stage in ROI-local coordinates (lines 57-63): polygon
approximation at tolerance 2 percent of the perimeter, convex hull,
minimum-area rectangle, and the integer-truncated corner points. -/
def localFit (fit : FitOps) (c : Contour) : RotRect × List (ℤ × ℤ) :=
  let epsilon := (2 : ℚ) / 100 * fit.arcLength c
  let approx := fit.approxPolyDP c epsilon
  let hull := fit.convexHull approx
  let rrect := fit.minAreaRect hull
  let box := (fit.boxPoints rrect).map fun p => (truncQ p.1, truncQ p.2)
  (rrect, box)

/-- Coordinate translation of the rectangle (lines 68-69): add the ROI
offset to the center, keep size and angle. -/
def translateRect (rt : RotRect) (x1 y1 : ℕ) : RotRect :=
  { center := (rt.center.1 + (x1 : ℚ), rt.center.2 + (y1 : ℚ)),
    size := rt.size, angle := rt.angle }

/-- Coordinate translation of the integer box points (lines 65-66):
add x1 to every x, y1 to every y. -/
def translateBox (b : List (ℤ × ℤ)) (x1 y1 : ℕ) : List (ℤ × ℤ) :=
  b.map fun p => (p.1 + (x1 : ℤ), p.2 + (y1 : ℤ))

/-- get_accurate_rotated_bbox (lines 34-71).  The Python return value
(None, None) is modelled as Except.ok none; a raised exception as
Except.error; a successful fit as Except.ok (some (rect, box)). -/
def get_accurate_rotated_bbox (seg : SegOps) (fit : FitOps) (image : Color)
    (bbox : ℕ × ℕ × ℕ × ℕ) (r : ℚ) :
    Except PyError (Option (RotRect × List (ℤ × ℤ))) :=
  match bbox with
  | (x1, y1, x2, y2) =>
    let roi := crop image x1 y1 x2 y2
    let roiArea := roiHeight roi * roiWidth roi
    match get_binary_mask seg roi with
    | Except.error e => Except.error e
    | Except.ok binary =>
      let contours := seg.findContours binary
      if contours.isEmpty then Except.ok none
      else
        let valid := validContours contours roiArea r
        if valid.isEmpty then Except.ok none
        else
          let c := maxByArea valid
          let fitted := localFit fit c
          Except.ok (some (translateRect fitted.1 x1 y1, translateBox fitted.2 x1 y1))

/-- pixel_to_cm (lines 79-82), over exact rationals.  Python raises
ZeroDivisionError when focal_length_pixels is zero (for int and float
alike); otherwise both components are computed independently by the
pinhole formula. -/
def pixel_to_cm (width_pixels height_pixels depth_cm focal_length_pixels : ℚ) :
    Except PyError (ℚ × ℚ) :=
  if focal_length_pixels = 0 then Except.error PyError.zeroDivision
  else Except.ok ((width_pixels * depth_cm) / focal_length_pixels,
    (height_pixels * depth_cm) / focal_length_pixels)

/-- Mask values are restricted to 0 and 255. -/
def binaryVals (m : Gray) : Prop := ∀ row ∈ m, ∀ v ∈ row, v = 0 ∨ v = 255

/-- Concrete instantiation of the opaque segmentation primitives, used to
evaluate the pipeline on small inputs: identity color conversions, an
identity CLAHE and blur, the green channel as grayscale, threshold fields
fixed at 0, and a fixed square contour. -/
def idSeg : SegOps where
  bgr2lab := fun m => m
  clahe := fun m => m
  lab2bgr := fun m => m
  cvtGray := fun m => m.map fun row => row.map fun p => p.1
  gaussianBlur5 := fun m => m
  otsuThresh := fun _ => 0
  adaptiveT := fun _ _ _ => 0
  findContours := fun _ => [[(0, 0), (4, 0), (4, 4), (0, 4)]]

/-- Concrete instantiation of the opaque fitting primitives: identity
simplification and hull, and a fixed axis-aligned rectangle of side 4. -/
def idFit : FitOps where
  arcLength := fun _ => 0
  approxPolyDP := fun c _ => c
  convexHull := fun c => c
  minAreaRect := fun _ => { center := (2, 2), size := (4, 4), angle := 0 }
  boxPoints := fun _ => [(0, 0), (4, 0), (4, 4), (0, 4)]

theorem mem_of_getQ {l : List α} : ∀ {i : ℕ} {a : α}, l[i]? = some a → a ∈ l := by
  induction l with
  | nil => intro i a h; simp at h
  | cons x xs ih =>
    intro i a h
    cases i with
    | zero => simp at h; simp [h]
    | succ n =>
      simp only [List.getElem?_cons_succ] at h
      exact List.mem_cons_of_mem _ (ih h)

theorem getPix_mem {m : List (List α)} {i j : ℕ} {v : α}
    (h : getPix m i j = some v) : ∃ row ∈ m, v ∈ row := by
  unfold getPix at h
  cases hm : m[i]? with
  | none => rw [hm] at h; simp at h
  | some row =>
    rw [hm] at h
    simp only [Option.some_bind] at h
    exact ⟨row, mem_of_getQ hm, mem_of_getQ h⟩

theorem getQ_zipWith {f : α → β → γ} :
    ∀ (l1 : List α) (l2 : List β) (i : ℕ) (a : α) (b : β),
      l1[i]? = some a → l2[i]? = some b →
      (List.zipWith f l1 l2)[i]? = some (f a b) := by
  intro l1
  induction l1 with
  | nil => intro l2 i a b h1 _; simp at h1
  | cons x xs ih =>
    intro l2 i a b h1 h2
    cases l2 with
    | nil => simp at h2
    | cons y ys =>
      cases i with
      | zero =>
        simp at h1 h2
        simp [List.zipWith, h1, h2]
      | succ n =>
        simp only [List.getElem?_cons_succ] at h1 h2
        simpa [List.zipWith] using ih ys n a b h1 h2

theorem getPix_bitwiseOr {m1 m2 : Gray} {i j a b : ℕ}
    (h1 : getPix m1 i j = some a) (h2 : getPix m2 i j = some b) :
    getPix (bitwiseOr m1 m2) i j = some (a ||| b) := by
  unfold getPix at h1 h2
  cases hr1 : m1[i]? with
  | none => rw [hr1] at h1; simp at h1
  | some r1 =>
    cases hr2 : m2[i]? with
    | none => rw [hr2] at h2; simp at h2
    | some r2 =>
      rw [hr1] at h1; rw [hr2] at h2
      simp only [Option.some_bind] at h1 h2
      unfold getPix bitwiseOr
      rw [getQ_zipWith m1 m2 i r1 r2 hr1 hr2]
      simp only [Option.some_bind]
      rw [getQ_zipWith r1 r2 j a b h1 h2]

theorem mem_mapIdxFrom {f : ℕ → α → β} :
    ∀ {l : List α} {n : ℕ} {y : β}, y ∈ mapIdxFrom f n l → ∃ i x, x ∈ l ∧ y = f i x := by
  intro l
  induction l with
  | nil => intro n y h; simp [mapIdxFrom] at h
  | cons x xs ih =>
    intro n y h
    simp only [mapIdxFrom, List.mem_cons] at h
    rcases h with h | h
    · exact ⟨n, x, List.mem_cons_self x xs, h⟩
    · obtain ⟨i, z, hz, hy⟩ := ih h
      exact ⟨i, z, List.mem_cons_of_mem _ hz, hy⟩

theorem mem_zipWith2 {f : α → β → γ} :
    ∀ {l1 : List α} {l2 : List β} {y : γ},
      y ∈ List.zipWith f l1 l2 → ∃ a b, a ∈ l1 ∧ b ∈ l2 ∧ y = f a b := by
  intro l1
  induction l1 with
  | nil => intro l2 y h; simp at h
  | cons x xs ih =>
    intro l2 y h
    cases l2 with
    | nil => simp at h
    | cons z zs =>
      simp only [List.zipWith, List.mem_cons] at h
      rcases h with h | h
      · exact ⟨x, z, List.mem_cons_self x xs, List.mem_cons_self z zs, h⟩
      · obtain ⟨a, b, ha, hb, hy⟩ := ih h
        exact ⟨a, b, List.mem_cons_of_mem _ ha, List.mem_cons_of_mem _ hb, hy⟩

theorem length_mapIdxFrom (f : ℕ → α → β) : ∀ (n : ℕ) (l : List α),
    (mapIdxFrom f n l).length = l.length := by
  intro n l
  induction l generalizing n with
  | nil => rfl
  | cons x xs ih => simp [mapIdxFrom, ih]

theorem shape_map_rows (F : List α → List β) (hF : ∀ row, (F row).length = row.length)
    (m : List (List α)) : shape (m.map F) = shape m := by
  induction m with
  | nil => rfl
  | cons r rs ih => simp only [shape, List.map_cons] at ih ⊢; rw [hF r, ih]

theorem shape_mapIdxFrom_rows (F : ℕ → List α → List β)
    (hF : ∀ i row, (F i row).length = row.length) :
    ∀ (n : ℕ) (m : List (List α)), shape (mapIdxFrom F n m) = shape m := by
  intro n m
  induction m generalizing n with
  | nil => rfl
  | cons r rs ih =>
    simp only [mapIdxFrom, shape, List.map_cons]
    rw [hF n r]
    have := ih (n + 1)
    simp only [shape] at this
    rw [this]

theorem shape_zipWith2 (f : α → β → γ) :
    ∀ (a : List (List α)) (b : List (List β)), shape a = shape b →
      shape (List.zipWith (fun r1 r2 => List.zipWith f r1 r2) a b) = shape a := by
  intro a
  induction a with
  | nil => intro b _; rfl
  | cons r rs ih =>
    intro b hab
    cases b with
    | nil => simp [shape] at hab
    | cons t ts =>
      simp only [shape, List.map_cons, List.cons.injEq] at hab
      simp only [List.zipWith, shape, List.map_cons, List.cons.injEq]
      constructor
      · rw [List.length_zipWith, hab.1, Nat.min_self]
      · have := ih ts hab.2
        simpa [shape] using this

theorem totalSize_congr {a : List (List α)} {b : List (List β)}
    (h : shape a = shape b) : totalSize a = totalSize b := by
  unfold totalSize
  unfold shape at h
  rw [h]

theorem foldl_max_binary : ∀ (l : List ℕ) (init : ℕ),
    (init = 0 ∨ init = 255) → (∀ v ∈ l, v = 0 ∨ v = 255) →
    (l.foldl max init = 0 ∨ l.foldl max init = 255) := by
  intro l
  induction l with
  | nil => intro init hi _; exact hi
  | cons x xs ih =>
    intro init hi hl
    simp only [List.foldl_cons]
    refine ih (max init x) ?_ (fun v hv => hl v (List.mem_cons_of_mem _ hv))
    rcases hi with h | h <;> rcases hl x (List.mem_cons_self x xs) with h2 | h2 <;>
      rw [h, h2] <;> simp

theorem foldl_min_binary : ∀ (l : List ℕ) (init : ℕ),
    (init = 0 ∨ init = 255) → (∀ v ∈ l, v = 0 ∨ v = 255) →
    (l.foldl min init = 0 ∨ l.foldl min init = 255) := by
  intro l
  induction l with
  | nil => intro init hi _; exact hi
  | cons x xs ih =>
    intro init hi hl
    simp only [List.foldl_cons]
    refine ih (min init x) ?_ (fun v hv => hl v (List.mem_cons_of_mem _ hv))
    rcases hi with h | h <;> rcases hl x (List.mem_cons_self x xs) with h2 | h2 <;>
      rw [h, h2] <;> simp

theorem neigh3_mem {m : Gray} {i j : ℕ} {v : ℕ} (hv : v ∈ neigh3 m i j) :
    ∃ row ∈ m, v ∈ row := by
  unfold neigh3 at hv
  rw [List.mem_filterMap] at hv
  obtain ⟨d, _, hd⟩ := hv
  unfold getPixI at hd
  split at hd
  · exact getPix_mem hd
  · simp at hd

theorem binaryVals_threshBinary (t : ℕ) (m : Gray) : binaryVals (threshBinary t m) := by
  intro row hrow v hv
  unfold threshBinary at hrow
  rw [List.mem_map] at hrow
  obtain ⟨row0, _, hrow0⟩ := hrow
  rw [← hrow0] at hv
  rw [List.mem_map] at hv
  obtain ⟨w, _, hw⟩ := hv
  rw [← hw]
  split <;> simp

theorem binaryVals_adaptiveThreshold (T : ℕ → ℕ → ℚ) (m : Gray) :
    binaryVals (adaptiveThreshold T m) := by
  intro row hrow v hv
  unfold adaptiveThreshold at hrow
  obtain ⟨i, row0, _, hrow0⟩ := mem_mapIdxFrom hrow
  rw [hrow0] at hv
  obtain ⟨j, w, _, hw⟩ := mem_mapIdxFrom hv
  rw [hw]
  split <;> simp

theorem binaryVals_bitwiseOr {m1 m2 : Gray} (h1 : binaryVals m1) (h2 : binaryVals m2) :
    binaryVals (bitwiseOr m1 m2) := by
  intro row hrow v hv
  unfold bitwiseOr at hrow
  obtain ⟨r1, r2, hr1, hr2, hrow0⟩ := mem_zipWith2 hrow
  rw [hrow0] at hv
  obtain ⟨a, b, ha, hb, hv0⟩ := mem_zipWith2 hv
  rw [hv0]
  rcases h1 r1 hr1 a ha with h | h <;> rcases h2 r2 hr2 b hb with h3 | h3 <;>
    rw [h, h3] <;> simp

theorem binaryVals_dilate3 {m : Gray} (hm : binaryVals m) : binaryVals (dilate3 m) := by
  intro row hrow v hv
  unfold dilate3 at hrow
  obtain ⟨i, row0, _, hrow0⟩ := mem_mapIdxFrom hrow
  rw [hrow0] at hv
  obtain ⟨j, w, _, hw⟩ := mem_mapIdxFrom hv
  rw [hw]
  refine foldl_max_binary _ 0 (Or.inl rfl) (fun u hu => ?_)
  obtain ⟨r, hr, hur⟩ := neigh3_mem hu
  exact hm r hr u hur

theorem binaryVals_erode3 {m : Gray} (hm : binaryVals m) : binaryVals (erode3 m) := by
  intro row hrow v hv
  unfold erode3 at hrow
  obtain ⟨i, row0, hrow0m, hrow0⟩ := mem_mapIdxFrom hrow
  rw [hrow0] at hv
  obtain ⟨j, w, hwm, hw⟩ := mem_mapIdxFrom hv
  rw [hw]
  refine foldl_min_binary _ w (hm row0 hrow0m w hwm) (fun u hu => ?_)
  obtain ⟨r, hr, hur⟩ := neigh3_mem hu
  exact hm r hr u hur

theorem filter_sublist_of_imp {p q : α → Bool} (l : List α)
    (h : ∀ a, p a = true → q a = true) : List.Sublist (l.filter p) (l.filter q) := by
  induction l with
  | nil => simp
  | cons x xs ih =>
    rw [List.filter_cons, List.filter_cons]
    by_cases hp : p x = true
    · rw [if_pos hp, if_pos (h x hp)]
      exact List.Sublist.cons₂ x ih
    · rw [if_neg hp]
      by_cases hq : q x = true
      · rw [if_pos hq]
        exact List.Sublist.cons x ih
      · rw [if_neg hq]
        exact ih

theorem foldl_pick_mem : ∀ (cs : List Contour) (c : Contour),
    cs.foldl (fun best x => if contourArea best < contourArea x then x else best) c ∈ c :: cs := by
  intro cs
  induction cs with
  | nil => intro c; simp
  | cons x xs ih =>
    intro c
    simp only [List.foldl_cons]
    rcases List.mem_cons.mp (ih (if contourArea c < contourArea x then x else c)) with h | h
    · rw [h]
      split
      · simp
      · simp
    · simp [h]

theorem foldl_pick_le : ∀ (cs : List Contour) (c : Contour),
    contourArea c ≤
        contourArea (cs.foldl (fun best x => if contourArea best < contourArea x then x else best) c) ∧
      ∀ x ∈ cs, contourArea x ≤
        contourArea (cs.foldl (fun best x => if contourArea best < contourArea x then x else best) c) := by
  intro cs
  induction cs with
  | nil => intro c; exact ⟨le_refl _, by simp⟩
  | cons x xs ih =>
    intro c
    simp only [List.foldl_cons]
    obtain ⟨h1, h2⟩ := ih (if contourArea c < contourArea x then x else c)
    have hc : contourArea c ≤ contourArea (if contourArea c < contourArea x then x else c) := by
      split
      · exact le_of_lt (by assumption)
      · exact le_refl _
    have hx : contourArea x ≤ contourArea (if contourArea c < contourArea x then x else c) := by
      split
      · exact le_refl _
      · exact le_of_not_lt (by assumption)
    refine ⟨hc.trans h1, fun y hy => ?_⟩
    rcases List.mem_cons.mp hy with h | h
    · rw [h]; exact hx.trans h1
    · exact h2 y h

theorem maxByArea_spec (l : List Contour) (hl : l ≠ []) :
    maxByArea l ∈ l ∧ ∀ c ∈ l, contourArea c ≤ contourArea (maxByArea l) := by
  cases l with
  | nil => exact absurd rfl hl
  | cons c cs =>
    unfold maxByArea
    refine ⟨foldl_pick_mem cs c, fun y hy => ?_⟩
    obtain ⟨h1, h2⟩ := foldl_pick_le cs c
    rcases List.mem_cons.mp hy with h | h
    · rw [h]; exact h1
    · exact h2 y h

theorem cvtColorChecked_ok {β : Type} (f : Color → β) (src : Color)
    (h : totalSize src ≠ 0) : cvtColorChecked f src = Except.ok (f src) := by
  unfold cvtColorChecked
  rw [if_neg h]

theorem shape_splitL (lab : Color) : shape (splitL lab) = shape lab :=
  shape_map_rows _ (fun row => List.length_map row _) lab

theorem shape_splitA (lab : Color) : shape (splitA lab) = shape lab :=
  shape_map_rows _ (fun row => List.length_map row _) lab

theorem shape_splitB (lab : Color) : shape (splitB lab) = shape lab :=
  shape_map_rows _ (fun row => List.length_map row _) lab

theorem shape_merge3 (x y z : Gray) (hxy : shape x = shape y) (hyz : shape y = shape z) :
    shape (merge3 x y z) = shape x := by
  have hin : shape (List.zipWith (fun ry rz => List.zipWith (fun a b => (a, b)) ry rz) y z) =
      shape y := shape_zipWith2 _ y z hyz
  unfold merge3
  rw [shape_zipWith2 _ _ _ (hxy.trans hin.symm)]

theorem shape_mergeSplit (seg : SegOps) (roi : Color)
    (hlab : ∀ m : Color, shape (seg.bgr2lab m) = shape m)
    (hcl : ∀ m : Gray, shape (seg.clahe m) = shape m) :
    shape (merge3 (seg.clahe (splitL (seg.bgr2lab roi)))
      (splitA (seg.bgr2lab roi)) (splitB (seg.bgr2lab roi))) = shape roi := by
  have hx : shape (seg.clahe (splitL (seg.bgr2lab roi))) = shape roi := by
    rw [hcl, shape_splitL, hlab]
  have hy : shape (splitA (seg.bgr2lab roi)) = shape roi := by
    rw [shape_splitA, hlab]
  have hz : shape (splitB (seg.bgr2lab roi)) = shape roi := by
    rw [shape_splitB, hlab]
  rw [shape_merge3 _ _ _ (hx.trans hy.symm) (hy.trans hz.symm)]
  exact hx

theorem enhance_image_ok (seg : SegOps) (roi : Color) (hne : totalSize roi ≠ 0)
    (hlab : ∀ m : Color, shape (seg.bgr2lab m) = shape m)
    (hcl : ∀ m : Gray, shape (seg.clahe m) = shape m) :
    enhance_image seg roi = Except.ok (enhancedPure seg roi) := by
  have hne2 : totalSize (merge3 (seg.clahe (splitL (seg.bgr2lab roi)))
      (splitA (seg.bgr2lab roi)) (splitB (seg.bgr2lab roi))) ≠ 0 := by
    rw [totalSize_congr (shape_mergeSplit seg roi hlab hcl)]
    exact hne
  simp only [enhance_image, cvtColorChecked_ok _ _ hne]
  exact cvtColorChecked_ok _ _ hne2

theorem shape_enhancedPure (seg : SegOps) (roi : Color)
    (hlab : ∀ m : Color, shape (seg.bgr2lab m) = shape m)
    (hcl : ∀ m : Gray, shape (seg.clahe m) = shape m)
    (hlbgr : ∀ m : Color, shape (seg.lab2bgr m) = shape m) :
    shape (enhancedPure seg roi) = shape roi := by
  unfold enhancedPure
  rw [hlbgr]
  exact shape_mergeSplit seg roi hlab hcl

theorem get_binary_mask_ok (seg : SegOps) (roi : Color) (hne : totalSize roi ≠ 0)
    (hlab : ∀ m : Color, shape (seg.bgr2lab m) = shape m)
    (hcl : ∀ m : Gray, shape (seg.clahe m) = shape m)
    (hlbgr : ∀ m : Color, shape (seg.lab2bgr m) = shape m) :
    get_binary_mask seg roi =
      Except.ok (morphOpen (morphClose (combinedMask seg (blurredOf seg roi)))) := by
  have hne2 : totalSize (enhancedPure seg roi) ≠ 0 := by
    rw [totalSize_congr (shape_enhancedPure seg roi hlab hcl hlbgr)]
    exact hne
  simp only [get_binary_mask, enhance_image_ok seg roi hne hlab hcl,
    cvtColorChecked_ok _ _ hne2]
  rfl

theorem getAccurate_none_of_empty_valid (seg : SegOps) (image : Color)
    (x1 y1 x2 y2 : ℕ) (r : ℚ) (mask : Gray)
    (hmask : get_binary_mask seg (crop image x1 y1 x2 y2) = Except.ok mask)
    (hval : validContours (seg.findContours mask)
      (roiHeight (crop image x1 y1 x2 y2) * roiWidth (crop image x1 y1 x2 y2)) r = [])
    (fit : FitOps) :
    get_accurate_rotated_bbox seg fit image (x1, y1, x2, y2) r = Except.ok none := by
  simp only [get_accurate_rotated_bbox, hmask]
  by_cases hc : (seg.findContours mask).isEmpty = true
  · rw [if_pos hc]
  · rw [if_neg hc, if_pos (by rw [hval]; rfl)]

theorem getAccurate_ok_some (seg : SegOps) (fit : FitOps) (image : Color)
    (x1 y1 x2 y2 : ℕ) (r : ℚ) (out : RotRect × List (ℤ × ℤ))
    (h : get_accurate_rotated_bbox seg fit image (x1, y1, x2, y2) r = Except.ok (some out)) :
    ∃ mask, get_binary_mask seg (crop image x1 y1 x2 y2) = Except.ok mask ∧
      validContours (seg.findContours mask)
        (roiHeight (crop image x1 y1 x2 y2) * roiWidth (crop image x1 y1 x2 y2)) r ≠ [] ∧
      out = (translateRect (localFit fit (maxByArea (validContours (seg.findContours mask)
          (roiHeight (crop image x1 y1 x2 y2) * roiWidth (crop image x1 y1 x2 y2)) r))).1 x1 y1,
        translateBox (localFit fit (maxByArea (validContours (seg.findContours mask)
          (roiHeight (crop image x1 y1 x2 y2) * roiWidth (crop image x1 y1 x2 y2)) r))).2 x1 y1) := by
  simp only [get_accurate_rotated_bbox] at h
  cases hm : get_binary_mask seg (crop image x1 y1 x2 y2) with
  | error e => simp only [hm] at h; simp at h
  | ok mask =>
    simp only [hm] at h
    split at h
    · simp at h
    · split at h
      · simp at h
      · rename_i hc1 hc2
        refine ⟨mask, rfl, ?_, ?_⟩
        · intro hnil
          exact hc2 (by rw [hnil]; rfl)
        · exact (Option.some.inj (Except.ok.inj h)).symm

theorem shape_threshBinary (t : ℕ) (m : Gray) : shape (threshBinary t m) = shape m :=
  shape_map_rows _ (fun row => List.length_map row _) m

theorem shape_adaptiveThreshold (T : ℕ → ℕ → ℚ) (m : Gray) :
    shape (adaptiveThreshold T m) = shape m :=
  shape_mapIdxFrom_rows _ (fun _ row => length_mapIdxFrom _ 0 row) 0 m

theorem shape_dilate3 (m : Gray) : shape (dilate3 m) = shape m :=
  shape_mapIdxFrom_rows _ (fun _ row => length_mapIdxFrom _ 0 row) 0 m

theorem shape_erode3 (m : Gray) : shape (erode3 m) = shape m :=
  shape_mapIdxFrom_rows _ (fun _ row => length_mapIdxFrom _ 0 row) 0 m

theorem shape_combinedMask (seg : SegOps) (b : Gray) : shape (combinedMask seg b) = shape b := by
  have h1 : shape (otsuMask seg b) = shape b := shape_threshBinary _ _
  have h2 : shape (adaptiveMask seg b) = shape b := shape_adaptiveThreshold _ _
  have h3 : shape (bitwiseOr (otsuMask seg b) (adaptiveMask seg b)) = shape (otsuMask seg b) :=
    shape_zipWith2 _ _ _ (h1.trans h2.symm)
  exact h3.trans h1

theorem binaryVals_combinedMask (seg : SegOps) (b : Gray) : binaryVals (combinedMask seg b) :=
  binaryVals_bitwiseOr (binaryVals_threshBinary _ _) (binaryVals_adaptiveThreshold _ _)

/-- Claim C1 (code bug demonstration).  The claim says a detection box whose
crop has zero width or zero height makes get_accurate_rotated_bbox return
(None, None) without raising; in the code the empty crop instead reaches
cv2.cvtColor inside enhance_image, whose !_src.empty() assertion raises
cv2.error, so for every such frame and box the call raises instead of
returning. -/
theorem spec_c1_empty_crop_raises (seg : SegOps) (fit : FitOps) (image : Color)
    (x1 y1 x2 y2 : ℕ) (r : ℚ) (hempty : totalSize (crop image x1 y1 x2 y2) = 0) :
    get_accurate_rotated_bbox seg fit image (x1, y1, x2, y2) r =
      Except.error PyError.emptyInput := by
  simp [get_accurate_rotated_bbox, get_binary_mask, enhance_image, cvtColorChecked, hempty]

/-- Concrete failing run for claim C1: a 1x1 frame with a zero-width box
(0,0,0,1) and with a zero-height box (0,0,1,0); both raise. -/
theorem spec_c1_empty_crop_raises_witness :
    get_accurate_rotated_bbox idSeg idFit [[(0, 0, 0)]] (0, 0, 0, 1) (1 / 10) =
        Except.error PyError.emptyInput ∧
      get_accurate_rotated_bbox idSeg idFit [[(0, 0, 0)]] (0, 0, 1, 0) (1 / 10) =
        Except.error PyError.emptyInput :=
  ⟨spec_c1_empty_crop_raises idSeg idFit [[(0, 0, 0)]] 0 0 0 1 (1 / 10) rfl,
    spec_c1_empty_crop_raises idSeg idFit [[(0, 0, 0)]] 0 0 1 0 (1 / 10) rfl⟩

/-- Claim C2: whenever get_accurate_rotated_bbox returns a fitted result,
the returned rectangle is the locally fitted rectangle with its center
translated by the box offset (x1, y1), with size and angle unchanged, and
the returned box points are the local integer box points translated
pointwise by (x1, y1). -/
theorem spec_c2_translation (seg : SegOps) (fit : FitOps) (image : Color)
    (x1 y1 x2 y2 : ℕ) (r : ℚ) (rect : RotRect) (box : List (ℤ × ℤ))
    (h : get_accurate_rotated_bbox seg fit image (x1, y1, x2, y2) r =
      Except.ok (some (rect, box))) :
    ∃ c : Contour,
      rect = translateRect (localFit fit c).1 x1 y1 ∧
      box = translateBox (localFit fit c).2 x1 y1 ∧
      rect.center.1 = (localFit fit c).1.center.1 + (x1 : ℚ) ∧
      rect.center.2 = (localFit fit c).1.center.2 + (y1 : ℚ) ∧
      rect.size = (localFit fit c).1.size ∧
      rect.angle = (localFit fit c).1.angle ∧
      box = (localFit fit c).2.map (fun p => (p.1 + (x1 : ℤ), p.2 + (y1 : ℤ))) := by
  obtain ⟨mask, hmask, hne, hout⟩ :=
    getAccurate_ok_some seg fit image x1 y1 x2 y2 r (rect, box) h
  rw [Prod.mk.injEq] at hout
  obtain ⟨hr, hb⟩ := hout
  exact ⟨_, hr, hb, by rw [hr]; rfl, by rw [hr]; rfl, by rw [hr]; rfl, by rw [hr]; rfl,
    by rw [hb]; rfl⟩

/-- Concrete instantiation of claim C2: a successful fit with offset (1,1)
has its center moved from (2,2) to (3,3) and its box points shifted. -/
theorem spec_c2_translation_witness :
    ∃ c : Contour,
      ({ center := (3, 3), size := (4, 4), angle := 0 } : RotRect) =
        translateRect (localFit idFit c).1 1 1 ∧
      ([(1, 1), (5, 1), (5, 5), (1, 5)] : List (ℤ × ℤ)) =
        translateBox (localFit idFit c).2 1 1 ∧
      ({ center := (3, 3), size := (4, 4), angle := 0 } : RotRect).center.1 =
        (localFit idFit c).1.center.1 + ((1 : ℕ) : ℚ) ∧
      ({ center := (3, 3), size := (4, 4), angle := 0 } : RotRect).center.2 =
        (localFit idFit c).1.center.2 + ((1 : ℕ) : ℚ) ∧
      ({ center := (3, 3), size := (4, 4), angle := 0 } : RotRect).size =
        (localFit idFit c).1.size ∧
      ({ center := (3, 3), size := (4, 4), angle := 0 } : RotRect).angle =
        (localFit idFit c).1.angle ∧
      ([(1, 1), (5, 1), (5, 5), (1, 5)] : List (ℤ × ℤ)) =
        (localFit idFit c).2.map (fun p => (p.1 + ((1 : ℕ) : ℤ), p.2 + ((1 : ℕ) : ℤ))) :=
  spec_c2_translation idSeg idFit [[(5, 5, 5), (5, 5, 5)], [(5, 5, 5), (5, 5, 5)]]
    1 1 2 2 (1 / 10) _ _ (by with_unfolding_all rfl)

/-- Claim C3: for every width, height, depth and nonzero focal length,
pixel_to_cm returns exactly ((width * depth) / focal, (height * depth) / focal),
each component computed independently by the pinhole formula. -/
theorem spec_c3_pinhole (w h d f : ℚ) (hf : f ≠ 0) :
    pixel_to_cm w h d f = Except.ok ((w * d) / f, (h * d) / f) := by
  simp [pixel_to_cm, hf]

/-- Scenario instance of claim C3: pixel_to_cm 1000 500 100 1000 yields
(100, 50). -/
theorem spec_c3_pinhole_witness :
    pixel_to_cm 1000 500 100 1000 = Except.ok (100, 50) := by
  rw [spec_c3_pinhole 1000 500 100 1000 (by norm_num)]
  norm_num

/-- Claim C4: for a fixed contour list and reference area, raising the
minimum-area ratio from r1 to r2 keeps the surviving contours a sublist
(hence a subset) of those surviving at r1, so the retained count never
increases. -/
theorem spec_c4_filter_monotone (cs : List Contour) (A : ℕ) (r1 r2 : ℚ) (h : r1 ≤ r2) :
    List.Sublist (validContours cs A r2) (validContours cs A r1) ∧
    (∀ c ∈ validContours cs A r2, c ∈ validContours cs A r1) ∧
    (validContours cs A r2).length ≤ (validContours cs A r1).length := by
  have himp : ∀ c : Contour, decide ((A : ℚ) * r2 < contourArea c) = true →
      decide ((A : ℚ) * r1 < contourArea c) = true := by
    intro c hc
    rw [decide_eq_true_eq] at hc ⊢
    exact lt_of_le_of_lt (mul_le_mul_of_nonneg_left h (Nat.cast_nonneg A)) hc
  have hsub : List.Sublist (validContours cs A r2) (validContours cs A r1) :=
    filter_sublist_of_imp cs himp
  exact ⟨hsub, fun c hc => hsub.subset hc, hsub.length_le⟩

/-- Concrete instance of claim C4: on one square contour of area 16 with
reference area 20, the ratio 1 retains no more contours than the ratio 1/2. -/
theorem spec_c4_filter_monotone_witness :
    (validContours [[(0, 0), (4, 0), (4, 4), (0, 4)]] 20 1).length ≤
      (validContours [[(0, 0), (4, 0), (4, 4), (0, 4)]] 20 (1 / 2)).length :=
  (spec_c4_filter_monotone _ 20 (1 / 2) 1 (by norm_num)).2.2

/-- Claim C5: whenever the area filter retains no contour (in particular
when findContours returns none at all), get_accurate_rotated_bbox returns
(None, None) - and it does so for every possible shape-fitting stage, so
no fitting is performed and no fault is raised. -/
theorem spec_c5_no_shape_found (seg : SegOps) (image : Color)
    (x1 y1 x2 y2 : ℕ) (r : ℚ) (mask : Gray)
    (hmask : get_binary_mask seg (crop image x1 y1 x2 y2) = Except.ok mask)
    (hval : validContours (seg.findContours mask)
      (roiHeight (crop image x1 y1 x2 y2) * roiWidth (crop image x1 y1 x2 y2)) r = [])
    (fit : FitOps) :
    get_accurate_rotated_bbox seg fit image (x1, y1, x2, y2) r = Except.ok none :=
  getAccurate_none_of_empty_valid seg image x1 y1 x2 y2 r mask hmask hval fit

/-- Concrete instance of claim C5: with ratio 17 the square contour of
area 16 is filtered out of a 1x1 region, and the call returns none. -/
theorem spec_c5_no_shape_found_witness :
    get_accurate_rotated_bbox idSeg idFit [[(5, 5, 5)]] (0, 0, 1, 1) 17 = Except.ok none :=
  spec_c5_no_shape_found idSeg [[(5, 5, 5)]] 0 0 1 1 17 [[255]]
    (by with_unfolding_all rfl) (by with_unfolding_all rfl) idFit

/-- Claim C6: whenever the filtered contour list is non-empty, the result
is computed from a filtered contour of maximal area by polygon
approximation at tolerance 2 percent of its perimeter, convex hull,
minimum-area rectangle, and integer-truncated corner points, then
translated by the box offset. -/
theorem spec_c6_dominant_fit (seg : SegOps) (fit : FitOps) (image : Color)
    (x1 y1 x2 y2 : ℕ) (r : ℚ) (out : RotRect × List (ℤ × ℤ))
    (h : get_accurate_rotated_bbox seg fit image (x1, y1, x2, y2) r =
      Except.ok (some out)) :
    ∃ mask c,
      get_binary_mask seg (crop image x1 y1 x2 y2) = Except.ok mask ∧
      c ∈ validContours (seg.findContours mask)
        (roiHeight (crop image x1 y1 x2 y2) * roiWidth (crop image x1 y1 x2 y2)) r ∧
      (∀ c2 ∈ validContours (seg.findContours mask)
        (roiHeight (crop image x1 y1 x2 y2) * roiWidth (crop image x1 y1 x2 y2)) r,
        contourArea c2 ≤ contourArea c) ∧
      out = (translateRect (fit.minAreaRect (fit.convexHull
          (fit.approxPolyDP c ((2 : ℚ) / 100 * fit.arcLength c)))) x1 y1,
        translateBox ((fit.boxPoints (fit.minAreaRect (fit.convexHull
          (fit.approxPolyDP c ((2 : ℚ) / 100 * fit.arcLength c))))).map
            (fun p => (truncQ p.1, truncQ p.2))) x1 y1) := by
  obtain ⟨mask, hmask, hne, hout⟩ := getAccurate_ok_some seg fit image x1 y1 x2 y2 r out h
  obtain ⟨hmem, hmax⟩ := maxByArea_spec _ hne
  exact ⟨mask, _, hmask, hmem, hmax, hout⟩

/-- Concrete instance of claim C6: a successful run on a 1x1 region,
where the fitted output comes from the single surviving square contour. -/
theorem spec_c6_dominant_fit_witness :
    ∃ mask c,
      get_binary_mask idSeg (crop [[(7, 7, 7)]] 0 0 1 1) = Except.ok mask ∧
      c ∈ validContours (idSeg.findContours mask)
        (roiHeight (crop [[(7, 7, 7)]] 0 0 1 1) * roiWidth (crop [[(7, 7, 7)]] 0 0 1 1)) (1 / 10) ∧
      (∀ c2 ∈ validContours (idSeg.findContours mask)
        (roiHeight (crop [[(7, 7, 7)]] 0 0 1 1) * roiWidth (crop [[(7, 7, 7)]] 0 0 1 1)) (1 / 10),
        contourArea c2 ≤ contourArea c) ∧
      (({ center := (2, 2), size := (4, 4), angle := 0 } : RotRect),
          ([(0, 0), (4, 0), (4, 4), (0, 4)] : List (ℤ × ℤ))) =
        (translateRect (idFit.minAreaRect (idFit.convexHull
            (idFit.approxPolyDP c ((2 : ℚ) / 100 * idFit.arcLength c)))) 0 0,
          translateBox ((idFit.boxPoints (idFit.minAreaRect (idFit.convexHull
            (idFit.approxPolyDP c ((2 : ℚ) / 100 * idFit.arcLength c))))).map
              (fun p => (truncQ p.1, truncQ p.2))) 0 0) :=
  spec_c6_dominant_fit idSeg idFit [[(7, 7, 7)]] 0 0 1 1 (1 / 10)
    ({ center := (2, 2), size := (4, 4), angle := 0 },
      [(0, 0), (4, 0), (4, 4), (0, 4)]) (by with_unfolding_all rfl)

/-- Claim C7: in get_binary_mask, the combined mask before morphological
cleanup is the pointwise bitwise or of the Otsu mask and the adaptive
mask; both masks take only the values 0 and 255, so a combined pixel is
foreground (255) exactly when at least one of the two thresholding
methods marks it foreground. -/
theorem spec_c7_or_combination (seg : SegOps) (blurred : Gray) (i j a b : ℕ)
    (ha : getPix (otsuMask seg blurred) i j = some a)
    (hb : getPix (adaptiveMask seg blurred) i j = some b) :
    getPix (combinedMask seg blurred) i j = some (if a = 255 ∨ b = 255 then 255 else 0) ∧
    (a = 0 ∨ a = 255) ∧ (b = 0 ∨ b = 255) := by
  have hav : a = 0 ∨ a = 255 := by
    obtain ⟨row, hrow, hmem⟩ := getPix_mem ha
    exact binaryVals_threshBinary _ _ row hrow a hmem
  have hbv : b = 0 ∨ b = 255 := by
    obtain ⟨row, hrow, hmem⟩ := getPix_mem hb
    exact binaryVals_adaptiveThreshold _ _ row hrow b hmem
  refine ⟨?_, hav, hbv⟩
  have hor := getPix_bitwiseOr ha hb
  unfold combinedMask
  rw [hor]
  rcases hav with h1 | h1 <;> rcases hbv with h2 | h2 <;> subst h1 <;> subst h2 <;> simp

/-- Concrete instance of claim C7: on a one-pixel raster both thresholds
fire, and the combined mask marks the pixel foreground. -/
theorem spec_c7_or_combination_witness :
    getPix (combinedMask idSeg [[10]]) 0 0 = some 255 := by
  have h := (spec_c7_or_combination idSeg [[10]] 0 0 255 255 rfl rfl).1
  simpa using h

/-- Claim C8: for every nonempty sub-image, get_binary_mask succeeds and
its result - as well as the intermediate combined mask and the closed
mask - is a single-channel raster of the same shape (width and height)
as the sub-image with every pixel value 0 or 255.  The opaque cv2 stages
are assumed shape-preserving, which is their documented behaviour. -/
theorem spec_c8_mask_invariants (seg : SegOps)
    (hlab : ∀ m : Color, shape (seg.bgr2lab m) = shape m)
    (hcl : ∀ m : Gray, shape (seg.clahe m) = shape m)
    (hlbgr : ∀ m : Color, shape (seg.lab2bgr m) = shape m)
    (hgray : ∀ m : Color, shape (seg.cvtGray m) = shape m)
    (hblur : ∀ m : Gray, shape (seg.gaussianBlur5 m) = shape m)
    (roi : Color) (hne : totalSize roi ≠ 0) :
    get_binary_mask seg roi =
      Except.ok (morphOpen (morphClose (combinedMask seg (blurredOf seg roi)))) ∧
    shape (combinedMask seg (blurredOf seg roi)) = shape roi ∧
    binaryVals (combinedMask seg (blurredOf seg roi)) ∧
    shape (morphClose (combinedMask seg (blurredOf seg roi))) = shape roi ∧
    binaryVals (morphClose (combinedMask seg (blurredOf seg roi))) ∧
    shape (morphOpen (morphClose (combinedMask seg (blurredOf seg roi)))) = shape roi ∧
    binaryVals (morphOpen (morphClose (combinedMask seg (blurredOf seg roi)))) := by
  have hmask := get_binary_mask_ok seg roi hne hlab hcl hlbgr
  have hb : shape (blurredOf seg roi) = shape roi := by
    unfold blurredOf
    rw [hblur, hgray, shape_enhancedPure seg roi hlab hcl hlbgr]
  have s1 : shape (combinedMask seg (blurredOf seg roi)) = shape roi :=
    (shape_combinedMask _ _).trans hb
  have v1 := binaryVals_combinedMask seg (blurredOf seg roi)
  have s2 : shape (morphClose (combinedMask seg (blurredOf seg roi))) = shape roi := by
    unfold morphClose
    rw [shape_erode3, shape_dilate3]
    exact s1
  have v2 : binaryVals (morphClose (combinedMask seg (blurredOf seg roi))) :=
    binaryVals_erode3 (binaryVals_dilate3 v1)
  have s3 : shape (morphOpen (morphClose (combinedMask seg (blurredOf seg roi)))) = shape roi := by
    unfold morphOpen
    rw [shape_dilate3, shape_erode3]
    exact s2
  have v3 : binaryVals (morphOpen (morphClose (combinedMask seg (blurredOf seg roi)))) :=
    binaryVals_dilate3 (binaryVals_erode3 v2)
  exact ⟨hmask, s1, v1, s2, v2, s3, v3⟩

/-- Concrete instance of claim C8 on a 1x1 sub-image. -/
theorem spec_c8_mask_invariants_witness :
    get_binary_mask idSeg [[(5, 5, 5)]] =
      Except.ok (morphOpen (morphClose (combinedMask idSeg (blurredOf idSeg [[(5, 5, 5)]])))) :=
  (spec_c8_mask_invariants idSeg (fun _ => rfl) (fun _ => rfl) (fun _ => rfl)
    (fun m => shape_map_rows _ (fun row => List.length_map row _) m) (fun _ => rfl)
    [[(5, 5, 5)]] (by decide)).1

/-- Claim C9: the coordinate-mapping step with offset (0, 0) is a no-op,
both on the rotated rectangle (center, size, angle) and on the integer
box points. -/
theorem spec_c9_zero_offset_noop (rt : RotRect) (b : List (ℤ × ℤ)) :
    translateRect rt 0 0 = rt ∧ translateBox b 0 0 = b := by
  constructor
  · unfold translateRect
    cases rt with
    | mk center size angle => simp
  · unfold translateBox
    simp

/-- Claim C10: pixel_to_cm divides by focal_length_pixels with no guard -
it is total and returns the pinhole values for every nonzero focal
length, and it takes the ZeroDivisionError branch when the focal length
is zero, so the spec's failure-free description holds only under the
unstated precondition focal_length_pixels different from 0. -/
theorem spec_c10_focal_guard (w h d f : ℚ) :
    (f ≠ 0 → pixel_to_cm w h d f = Except.ok ((w * d) / f, (h * d) / f)) ∧
    (f = 0 → pixel_to_cm w h d f = Except.error PyError.zeroDivision) := by
  constructor
  · intro hf
    simp [pixel_to_cm, hf]
  · intro hf
    simp [pixel_to_cm, hf]

/-- Concrete instance of claim C10: focal length 1 returns a value, focal
length 0 raises. -/
theorem spec_c10_focal_guard_witness :
    pixel_to_cm 3 4 5 1 = Except.ok (15, 20) ∧
      pixel_to_cm 3 4 5 0 = Except.error PyError.zeroDivision := by
  constructor
  · rw [(spec_c10_focal_guard 3 4 5 1).1 (by norm_num)]
    norm_num
  · exact (spec_c10_focal_guard 3 4 5 0).2 rfl
